import Mathlib

/-!
Shallow embedding of `src/server.js` (node-git-http-server).

The server provisions three bare repositories at startup, routes `/git/*`
requests to a spawned `git http-backend` CGI process, and translates the CGI
stdout stream (header block, a `CRLFCRLF` delimiter, then the body) into an
HTTP response.

Bytes are modelled as natural numbers (`List Nat` for byte buffers); the JS
string operations used by the header parser (`split`, `join`, `trim`,
`toLowerCase`, `parseInt`) are given byte-level counterparts faithful to
their behaviour on the ASCII data the CGI backend produces.  JS objects used
as string-keyed maps (`responseHeaders`) are modelled as association lists
where assignment overwrites in place.
-/

namespace NodeGitHttp

/-- Bytes of an ASCII string literal. -/
def byteStr (s : String) : List Nat :=
  s.data.map Char.toNat

/-- Helper for the splitting functions: prepend an element to the first group
of a non-empty group list. -/
def consHead (x : Nat) : List (List Nat) → List (List Nat)
  | [] => [[x]]
  | l :: ls => (x :: l) :: ls

/-- JS `string.split(sep)` for a single-byte separator `b` (used for
`header.split(':')` and `value.split(' ')` in src/server.js lines 89 and 93). -/
def splitOnByte (b : Nat) : List Nat → List (List Nat)
  | [] => [[]]
  | x :: xs => if x = b then [] :: splitOnByte b xs else consHead x (splitOnByte b xs)

/-- JS `array.join(sep)` for a single-byte separator (used for
`valueParts.join(':')` in src/server.js line 91). -/
def joinByte (b : Nat) : List (List Nat) → List Nat
  | [] => []
  | [l] => l
  | l :: ls => l ++ b :: joinByte b ls

/-- JS `headerSection.split('\r\n')` (src/server.js line 87): split on each
occurrence of the two-byte sequence CR LF, scanning left to right. -/
def splitCRLF : List Nat → List (List Nat)
  | [] => [[]]
  | 13 :: 10 :: xs => [] :: splitCRLF xs
  | x :: xs => consHead x (splitCRLF xs)

/-- Whitespace bytes removed by JS `string.trim()` (restricted to the ASCII
range, which is all the CGI backend emits). -/
def isWSByte (c : Nat) : Bool :=
  c = 9 || c = 10 || c = 11 || c = 12 || c = 13 || c = 32

/-- JS `string.trim()` on ASCII bytes (src/server.js line 91). -/
def jsTrim (l : List Nat) : List Nat :=
  ((l.dropWhile isWSByte).reverse.dropWhile isWSByte).reverse

/-- ASCII lowercase of one byte, as JS `toLowerCase` acts on ASCII. -/
def lowerByte (c : Nat) : Nat :=
  if 65 ≤ c ∧ c ≤ 90 then c + 32 else c

/-- JS `key.toLowerCase()` on ASCII bytes (src/server.js line 92). -/
def lowerBytes (l : List Nat) : List Nat :=
  l.map lowerByte

/-- Decimal digit byte. -/
def isDigitByte (c : Nat) : Bool :=
  decide (48 ≤ c ∧ 57 ≥ c)

/-- Value of a maximal leading run of decimal digits; `none` when there is no
leading digit (JS `parseInt` returns `NaN` there). -/
def digitsValue (l : List Nat) : Option Nat :=
  let ds := l.takeWhile isDigitByte
  if ds.isEmpty then none
  else some (ds.foldl (fun a c => a * 10 + (c - 48)) 0)

/-- JS `parseInt(s)` (src/server.js line 93) on a token with no leading
whitespace: optional sign, then leading digits; `none` models `NaN`. -/
def parseIntJS (l : List Nat) : Option Int :=
  match l with
  | 45 :: rest => (digitsValue rest).map (fun n => -(n : Int))
  | 43 :: rest => (digitsValue rest).map (fun n => (n : Int))
  | _ => (digitsValue l).map (fun n => (n : Int))

/-- JS object property assignment `obj[key] = value` on a string-keyed map:
overwrite in place when the key is present, append otherwise. -/
def setKey (hs : List (List Nat × List Nat)) (k v : List Nat) :
    List (List Nat × List Nat) :=
  match hs with
  | [] => [(k, v)]
  | (k₀, v₀) :: rest => if k₀ = k then (k, v) :: rest else (k₀, v₀) :: setKey rest k v

/-- Body of the `headers.forEach` loop, src/server.js lines 88 to 99: split
the line on `':'`; when the key is non-empty and the line contained a colon,
either set the status code (case-insensitive `status` key, `parseInt` of the
first space-delimited token of the trimmed value) or record the header with
its trimmed value.  The state is the pair `(res.statusCode, responseHeaders)`;
`none` as a status models the JS `NaN`. -/
def processHeaderLine (st : Option Int × List (List Nat × List Nat))
    (line : List Nat) : Option Int × List (List Nat × List Nat) :=
  match splitOnByte 58 line with
  | [] => st
  | key :: valueParts =>
    if key ≠ [] ∧ valueParts ≠ [] then
      let value := jsTrim (joinByte 58 valueParts)
      if lowerBytes key = byteStr "status" then
        (parseIntJS ((splitOnByte 32 value).headD []), st.2)
      else
        (st.1, setKey st.2 key value)
    else st

/-- Header-section parse starting from a given `res.statusCode` and an empty
`responseHeaders` object (src/server.js lines 84 to 99). -/
def parseHeadersFrom (st₀ : Option Int) (hdr : List Nat) :
    Option Int × List (List Nat × List Nat) :=
  (splitCRLF hdr).foldl processHeaderLine (st₀, [])

/-- Header-section parse from the Node default status 200. -/
def parseHeaders (hdr : List Nat) : Option Int × List (List Nat × List Nat) :=
  parseHeadersFrom (some 200) hdr

/-- Buffer starts with the four delimiter bytes CR LF CR LF, the pattern
`Buffer.indexOf('\r\n\r\n')` searches for (src/server.js line 80). -/
def isDelimAt (l : List Nat) : Bool :=
  decide (l.take 4 = [13, 10, 13, 10])

/-- Index of the first occurrence of CR LF CR LF in a buffer, `none` when the
pattern does not occur: JS `responseBuffer.indexOf('\r\n\r\n')` with `-1`
modelled as `none` (src/server.js line 80). -/
def findDelim : List Nat → Option Nat
  | [] => none
  | x :: xs => if isDelimAt (x :: xs) then some 0 else (findDelim xs).map (· + 1)

/-- Observable response state of the Node `res` object: status code (`none`
models `NaN`), headers set via `setHeader`, body bytes written so far, and
whether `res.end()` has run. -/
structure ResState where
  statusCode : Option Int
  headers : List (List Nat × List Nat)
  body : List Nat
  ended : Bool
deriving DecidableEq, Repr

/-- Response state at the start of a request: Node defaults to status 200,
no headers set, nothing written. -/
def initRes : ResState :=
  { statusCode := some 200, headers := [], body := [], ended := false }

/-- Mutable state of the `gitBackend.stdout.on('data', ...)` handler
(src/server.js lines 73 to 75): the `headersParsed` flag, the accumulating
`responseBuffer`, and the response object. -/
structure GitState where
  headersParsed : Bool
  responseBuffer : List Nat
  res : ResState
deriving DecidableEq, Repr

/-- State before the first stdout chunk arrives. -/
def initGit : GitState :=
  { headersParsed := false, responseBuffer := [], res := initRes }

/-- The `'data'` event handler, src/server.js lines 77 to 117: while headers
are unparsed, append the chunk to the buffer and look for the first
CR LF CR LF; on a hit, parse the bytes before it as the header section, set
status and headers, and write the bytes after it; afterwards write each chunk
directly.  (The conditional `if (bodySection.length > 0)` guard is dropped
since writing zero bytes and not writing are the same byte stream.) -/
def step (s : GitState) (chunk : List Nat) : GitState :=
  if s.headersParsed then
    { s with res := { s.res with body := s.res.body ++ chunk } }
  else
    match findDelim (s.responseBuffer ++ chunk) with
    | none => { s with responseBuffer := s.responseBuffer ++ chunk }
    | some i =>
      let buf := s.responseBuffer ++ chunk
      let parsed := parseHeadersFrom s.res.statusCode (buf.take i)
      { headersParsed := true
        responseBuffer := buf
        res := { statusCode := parsed.1
                 headers := parsed.2
                 body := s.res.body ++ buf.drop (i + 4)
                 ended := s.res.ended } }

/-- Process a sequence of stdout chunks in arrival order. -/
def processAll (s : GitState) (chunks : List (List Nat)) : GitState :=
  chunks.foldl step s

/-- The `'end'` event handler, src/server.js lines 119 to 121: `res.end()`. -/
def endResponse (s : GitState) : GitState :=
  { s with res := { s.res with ended := true } }

/-- The `gitBackend.on('error', ...)` handler, src/server.js lines 63 to 67:
log the error, set status 500 and end the response with the fixed body.  The
returned flag records that `console.error` ran. -/
def onBackendError (r : ResState) : ResState × Bool :=
  ({ r with statusCode := some 500
            body := r.body ++ byteStr "Internal Server Error"
            ended := true }, true)

/-- Outcome of one `/git/*` request as a function of whether the backend
spawn succeeded and of the backend stdout chunks; the flag records whether
the error path logged.  A spawn failure produces no stdout data, so the
response is the error handler applied to the untouched initial state. -/
def gitRequestResult (spawnOk : Bool) (chunks : List (List Nat)) :
    ResState × Bool :=
  if spawnOk then ((endResponse (processAll initGit chunks)).res, false)
  else onBackendError initRes

/-- JS `hay.includes(needle)`: substring test (src/server.js line 136). -/
def hasSub (needle : List Char) : List Char → Bool
  | [] => needle.isEmpty
  | x :: xs => needle.isPrefixOf (x :: xs) || hasSub needle xs

/-- Routing decision of `requestHandler`: an immediate 400, an immediate 404,
or dispatch to `handleGitRequest`, which spawns `git http-backend` with
`PATH_INFO`, `REQUEST_METHOD` and `CONTENT_TYPE` marshalled into the CGI
environment (src/server.js lines 43 to 46). -/
inductive RouteDecision where
  | reject400
  | reject404
  | dispatchGit (pathInfo : List Char) (requestMethod : List Char)
      (contentType : List Char)
deriving DecidableEq, Repr

/-- The `requestHandler` function, src/server.js lines 128 to 150: paths not
starting with `/git/` get 404; under `/git/`, a path whose remainder contains
`..` or `//` gets 400; everything else is dispatched to the backend with the
method and content-type passed through unchanged (`CONTENT_TYPE` defaults to
the empty string, line 46). -/
def requestHandler (method pathname : List Char) (contentType : Option (List Char)) :
    RouteDecision :=
  if ("/git/".toList).isPrefixOf pathname then
    let gitPath := pathname.drop 5
    if hasSub "..".toList gitPath || hasSub "//".toList gitPath then
      RouteDecision.reject400
    else
      RouteDecision.dispatchGit (pathname.drop 4) method (contentType.getD [])
  else
    RouteDecision.reject404

/-- Whether a routing decision spawns the `git http-backend` process. -/
def spawnsBackend : RouteDecision → Bool
  | RouteDecision.dispatchGit _ _ _ => true
  | _ => false

/-- Immediate response written by `requestHandler` itself, as
(status, content-type header, body): lines 137 to 139 and 147 to 149 of
src/server.js.  Dispatched requests are answered later by the backend
pipeline, hence `none`. -/
def immediateResponse : RouteDecision → Option (Nat × Option String × String)
  | RouteDecision.reject400 => some (400, none, "Bad Request")
  | RouteDecision.reject404 => some (404, some "text/plain", "Not Found")
  | RouteDecision.dispatchGit _ _ _ => none

/-- The hardcoded bootstrap repository names (src/server.js line 14). -/
def bootstrapRepos : List String :=
  ["repos1", "repos2", "repos3"]

/-- Path of a bootstrap repository (src/server.js line 15). -/
def repoPath (root name : String) : String :=
  root ++ "/" ++ name ++ ".git"

/-- One provisioning check, src/server.js lines 16 to 30: the filesystem is
modelled as the list of existing repository directories; when the directory
exists nothing happens, otherwise the `mkdir` and `git init --bare` shell
invocation creates it.  The flag records whether the creation side effect
(the `execSync` call) ran. -/
def ensureRepo (fs : List String) (p : String) : List String × Bool :=
  if p ∈ fs then (fs, false) else (p :: fs, true)

/-- Body of the provisioning `forEach` (src/server.js lines 14 to 31),
threading the filesystem and accumulating the names whose creation command
ran. -/
def provStep (root : String) (acc : List String × List String) (name : String) :
    List String × List String :=
  let r := ensureRepo acc.1 (repoPath root name)
  (r.1, if r.2 then acc.2 ++ [name] else acc.2)

/-- Startup provisioning: run the check for each bootstrap repository,
returning the resulting filesystem and the list of names actually created. -/
def provision (root : String) (fs : List String) : List String × List String :=
  bootstrapRepos.foldl (provStep root) (fs, [])


/-! ## Basic lemmas about the byte-string operations -/

theorem splitOnByte_nil (b : Nat) : splitOnByte b [] = [[]] := rfl

theorem splitOnByte_cons (b x : Nat) (xs : List Nat) :
    splitOnByte b (x :: xs) =
      if x = b then [] :: splitOnByte b xs else consHead x (splitOnByte b xs) := rfl

theorem splitOnByte_ne_nil (b : Nat) (l : List Nat) : splitOnByte b l ≠ [] := by
  cases l with
  | nil => simp [splitOnByte]
  | cons x xs =>
    rw [splitOnByte_cons]
    split
    · simp
    · cases h : splitOnByte b xs with
      | nil => simp [consHead]
      | cons y ys => simp [consHead]

theorem joinByte_nil (b : Nat) : joinByte b [] = [] := rfl

theorem joinByte_single (b : Nat) (l : List Nat) : joinByte b [l] = l := rfl

theorem joinByte_cons₂ (b : Nat) (l₁ l₂ : List Nat) (ls : List (List Nat)) :
    joinByte b (l₁ :: l₂ :: ls) = l₁ ++ b :: joinByte b (l₂ :: ls) := rfl

theorem joinByte_splitOnByte (b : Nat) (l : List Nat) :
    joinByte b (splitOnByte b l) = l := by
  induction l with
  | nil => rfl
  | cons x xs ih =>
    by_cases hx : x = b
    · subst hx
      rw [splitOnByte_cons, if_pos rfl]
      rcases h : splitOnByte x xs with _ | ⟨s, ss⟩
      · exact absurd h (splitOnByte_ne_nil x xs)
      · rw [h] at ih
        rw [joinByte_cons₂, List.nil_append, ih]
    · rw [splitOnByte_cons, if_neg hx]
      rcases h : splitOnByte b xs with _ | ⟨s, ss⟩
      · exact absurd h (splitOnByte_ne_nil b xs)
      · rw [h] at ih
        show joinByte b ((x :: s) :: ss) = x :: xs
        cases ss with
        | nil => rw [joinByte_single]; rw [joinByte_single] at ih; rw [ih]
        | cons t ts =>
          rw [joinByte_cons₂]
          rw [joinByte_cons₂] at ih
          rw [List.cons_append, ih]

theorem splitOnByte_append_sep (b : Nat) (key rest : List Nat)
    (h : ∀ c ∈ key, c ≠ b) :
    splitOnByte b (key ++ b :: rest) = key :: splitOnByte b rest := by
  induction key with
  | nil => simp [splitOnByte_cons]
  | cons x xs ih =>
    have hx : x ≠ b := h x (List.mem_cons_self x xs)
    rw [List.cons_append, splitOnByte_cons, if_neg hx,
      ih (fun c hc => h c (List.mem_cons_of_mem x hc))]
    rfl

/-! ## Claim C1: traversal paths under the git prefix get 400 and no spawn -/

/-- C1: every request whose path starts with `/git/` and whose remainder
contains `..` or `//` is answered with status 400 and body `Bad Request`,
and the backend process is not spawned (so no request-scoped filesystem
access happens). -/
theorem traversal_paths_rejected (method pathname : List Char)
    (ct : Option (List Char))
    (hpre : ("/git/".toList).isPrefixOf pathname = true)
    (hbad : hasSub "..".toList (pathname.drop 5) = true ∨
      hasSub "//".toList (pathname.drop 5) = true) :
    requestHandler method pathname ct = RouteDecision.reject400 ∧
    immediateResponse (requestHandler method pathname ct) =
      some (400, none, "Bad Request") ∧
    spawnsBackend (requestHandler method pathname ct) = false := by
  have hor : (hasSub "..".toList (pathname.drop 5) ||
      hasSub "//".toList (pathname.drop 5)) = true :=
    (Bool.or_eq_true _ _).mpr hbad
  have hmain : requestHandler method pathname ct = RouteDecision.reject400 := by
    unfold requestHandler
    simp only [hpre, hor]
    rfl
  exact ⟨hmain, by rw [hmain]; rfl, by rw [hmain]; rfl⟩

/-- C1 witness: a concrete traversal request is rejected with 400. -/
theorem traversal_paths_rejected_witness :
    requestHandler "GET".toList "/git/a..b".toList none = RouteDecision.reject400 :=
  (traversal_paths_rejected "GET".toList "/git/a..b".toList none (by decide)
    (Or.inl (by decide))).1

/-! ## Claim C7: paths outside the git prefix get 404 and no spawn -/

/-- C7: every request whose path does not start with `/git/` is answered
with status 404, content-type `text/plain` and body `Not Found`, and no
backend process is spawned. -/
theorem non_git_paths_not_found (method pathname : List Char)
    (ct : Option (List Char))
    (hpre : ("/git/".toList).isPrefixOf pathname = false) :
    requestHandler method pathname ct = RouteDecision.reject404 ∧
    immediateResponse (requestHandler method pathname ct) =
      some (404, some "text/plain", "Not Found") ∧
    spawnsBackend (requestHandler method pathname ct) = false := by
  have hmain : requestHandler method pathname ct = RouteDecision.reject404 := by
    unfold requestHandler
    simp only [hpre]
    rfl
  exact ⟨hmain, by rw [hmain]; rfl, by rw [hmain]; rfl⟩

/-- C7 witness: a concrete non-git request gets the 404 response. -/
theorem non_git_paths_not_found_witness :
    requestHandler "GET".toList "/foo".toList none = RouteDecision.reject404 :=
  (non_git_paths_not_found "GET".toList "/foo".toList none (by decide)).1

/-! ## Claim C5: the router does not check methods or content types -/

/-- C5 counterexample: a `DELETE` request to the advertisement endpoint is
dispatched to the backend (the backend process is spawned), contradicting the
claim that method mismatches are rejected rather than dispatched: the code in
src/server.js lines 128 to 150 never inspects the method or content-type. -/
theorem method_mismatch_dispatched :
    spawnsBackend (requestHandler "DELETE".toList "/git/repos1/info/refs".toList none)
      = true := by decide

/-- C5 amended: the router performs no method or content-type checks of its
own; every request whose path passes the `/git/` prefix and traversal checks
is dispatched to the spawned backend, with the request method and
content-type forwarded verbatim in the CGI environment (`REQUEST_METHOD`,
`CONTENT_TYPE`), leaving method and content-type policy to the external
`git http-backend`. -/
theorem router_ignores_method (method pathname : List Char)
    (ct : Option (List Char))
    (hpre : ("/git/".toList).isPrefixOf pathname = true)
    (h₁ : hasSub "..".toList (pathname.drop 5) = false)
    (h₂ : hasSub "//".toList (pathname.drop 5) = false) :
    requestHandler method pathname ct =
      RouteDecision.dispatchGit (pathname.drop 4) method (ct.getD []) := by
  unfold requestHandler
  simp only [hpre, h₁, h₂]
  rfl

/-- C5 witness: a concrete `GET` advertisement request is dispatched with its
method and empty content-type forwarded. -/
theorem router_ignores_method_witness :
    requestHandler "GET".toList "/git/repos1/info/refs".toList none =
      RouteDecision.dispatchGit "/repos1/info/refs".toList "GET".toList [] :=
  router_ignores_method "GET".toList "/git/repos1/info/refs".toList none
    (by decide) (by decide) (by decide)

/-! ## Claim C6: provisioning is idempotent -/

theorem mem_fst_foldl_provStep (root : String) :
    ∀ (l : List String) (acc : List String × List String) (p : String),
      p ∈ acc.1 → p ∈ (l.foldl (provStep root) acc).1 := by
  intro l
  induction l with
  | nil => intro acc p hp; exact hp
  | cons m ms ih =>
    intro acc p hp
    apply ih
    show p ∈ (provStep root acc m).1
    unfold provStep ensureRepo
    split
    · exact hp
    · exact List.mem_cons_of_mem _ hp

theorem repoPath_mem_foldl (root : String) :
    ∀ (l : List String) (acc : List String × List String) (n : String),
      n ∈ l → repoPath root n ∈ (l.foldl (provStep root) acc).1 := by
  intro l
  induction l with
  | nil => intro acc n hn; cases hn
  | cons m ms ih =>
    intro acc n hn
    rcases List.mem_cons.mp hn with h | h
    · subst h
      show repoPath root n ∈ (List.foldl (provStep root) (provStep root acc n) ms).1
      apply mem_fst_foldl_provStep
      show repoPath root n ∈ (provStep root acc n).1
      unfold provStep ensureRepo
      split
      · assumption
      · exact List.mem_cons_self _ _
    · exact ih (provStep root acc m) n h

theorem foldl_provStep_noop (root : String) :
    ∀ (l : List String) (acc : List String × List String),
      (∀ n ∈ l, repoPath root n ∈ acc.1) → l.foldl (provStep root) acc = acc := by
  intro l
  induction l with
  | nil => intro acc _; rfl
  | cons m ms ih =>
    intro acc h
    have hm : repoPath root m ∈ acc.1 := h m (List.mem_cons_self m ms)
    have hstep : provStep root acc m = acc := by
      unfold provStep ensureRepo
      rw [if_pos hm]
      exact Prod.mk.eta
    show List.foldl (provStep root) (provStep root acc m) ms = acc
    rw [hstep]
    exact ih acc (fun n hn => h n (List.mem_cons_of_mem m hn))

/-- C6: provisioning is idempotent.  A single check whose repository
directory already exists performs no creation side effect and leaves the
filesystem unchanged, and running the whole startup provisioning a second
time on the state produced by the first run creates nothing and returns the
state unchanged. -/
theorem provisioning_idempotent :
    (∀ (fs : List String) (p : String), p ∈ fs → ensureRepo fs p = (fs, false)) ∧
    (∀ (root : String) (fs : List String),
      provision root (provision root fs).1 = ((provision root fs).1, [])) := by
  constructor
  · intro fs p hp
    unfold ensureRepo
    rw [if_pos hp]
  · intro root fs
    show List.foldl (provStep root) ((provision root fs).1, []) bootstrapRepos
      = ((provision root fs).1, [])
    apply foldl_provStep_noop
    intro n hn
    exact repoPath_mem_foldl root bootstrapRepos (fs, []) n hn

/-- C6 witness: an existing repository directory is left untouched with no
creation side effect. -/
theorem provisioning_idempotent_witness :
    ensureRepo ["/r/repos1.git"] "/r/repos1.git" = (["/r/repos1.git"], false) :=
  provisioning_idempotent.1 ["/r/repos1.git"] "/r/repos1.git" (by decide)

/-! ## Claim C8: spawn failure yields a request-scoped 500 -/

/-- C8: when spawning the backend fails, the error handler of src/server.js
lines 63 to 67 answers that request with status 500 and body
`Internal Server Error`, logs the error (`console.error`), and completes the
response; the outcome is a value of the per-request result type, so the
failure is confined to that request and the listening process keeps running. -/
theorem spawn_failure_internal_error (chunks : List (List Nat)) :
    gitRequestResult false chunks =
      ({ statusCode := some 500, headers := [],
         body := byteStr "Internal Server Error", ended := true }, true) := rfl

/-! ## Claim C3: translation of CGI header lines -/

/-- C3 counterexample: the header line `":x"` contains a colon with the
non-empty remainder `"x"` and its name is not `Status`, yet it is not
forwarded as a response header (and the state is entirely unchanged), because
the code requires the text before the first colon to be non-empty
(`if (key && ...)`, src/server.js line 90). -/
theorem header_line_empty_name_not_forwarded :
    processHeaderLine (some 200, []) (byteStr ":x") = (some 200, []) := by decide

/-- C3 amended: for a header line with a non-empty, colon-free name followed
by a colon, the translation is: when the name is `Status` compared
case-insensitively, the status code becomes the `parseInt` of the first
space-delimited token of the whitespace-trimmed value and no header is
recorded; otherwise the line is forwarded as a response header whose value is
everything after the first colon, whitespace-trimmed. -/
theorem header_line_translation (st : Option Int × List (List Nat × List Nat))
    (key rest : List Nat) (hk : key ≠ []) (hkc : ∀ c ∈ key, c ≠ 58) :
    processHeaderLine st (key ++ 58 :: rest) =
      if lowerBytes key = byteStr "status" then
        (parseIntJS ((splitOnByte 32 (jsTrim rest)).headD []), st.2)
      else
        (st.1, setKey st.2 key (jsTrim rest)) := by
  unfold processHeaderLine
  rw [splitOnByte_append_sep 58 key rest hkc]
  show (if key ≠ [] ∧ splitOnByte 58 rest ≠ [] then _ else _) = _
  rw [if_pos ⟨hk, splitOnByte_ne_nil 58 rest⟩, joinByte_splitOnByte 58 rest]

/-- C3 witness: `Status: 404 Not Found` sets the status to 404 and records no
header. -/
theorem header_line_translation_witness :
    processHeaderLine (some 200, []) (byteStr "Status" ++ 58 :: byteStr " 404 Not Found")
      = (some 404, []) := by
  rw [header_line_translation (some 200, []) (byteStr "Status")
    (byteStr " 404 Not Found") (by decide) (by decide)]
  decide

/-! ## Lemmas about the delimiter search -/

theorem bool_eq_false {b : Bool} (h : ¬b = true) : b = false := by
  cases b
  · rfl
  · exact absurd rfl h

theorem isDelimAt_le_length {l : List Nat} (h : isDelimAt l = true) :
    4 ≤ l.length := by
  unfold isDelimAt at h
  have h₄ : l.take 4 = [13, 10, 13, 10] := of_decide_eq_true h
  have hlen : (l.take 4).length = 4 := by rw [h₄]; rfl
  rw [List.length_take] at hlen
  omega

theorem isDelimAt_append_of_le {l : List Nat} (m : List Nat) (h : 4 ≤ l.length) :
    isDelimAt (l ++ m) = isDelimAt l := by
  unfold isDelimAt
  rw [List.take_append_of_le_length h]

theorem isDelimAt_append_true {l : List Nat} (m : List Nat)
    (h : isDelimAt l = true) : isDelimAt (l ++ m) = true := by
  rw [isDelimAt_append_of_le m (isDelimAt_le_length h)]
  exact h

theorem findDelim_cons (x : Nat) (xs : List Nat) :
    findDelim (x :: xs) =
      if isDelimAt (x :: xs) then some 0 else (findDelim xs).map (· + 1) := rfl

theorem findDelim_some_le : ∀ {l : List Nat} {i : Nat},
    findDelim l = some i → i + 4 ≤ l.length := by
  intro l
  induction l with
  | nil => intro i h; exact Option.noConfusion h
  | cons x xs ih =>
    intro i h
    rw [findDelim_cons] at h
    by_cases hd : isDelimAt (x :: xs) = true
    · rw [if_pos hd] at h
      have h₀ : (0 : Nat) = i := by injection h
      subst h₀
      have := isDelimAt_le_length hd
      omega
    · rw [if_neg hd] at h
      cases hj : findDelim xs with
      | none => rw [hj] at h; exact Option.noConfusion h
      | some j =>
        rw [hj] at h
        simp only [Option.map_some'] at h
        have hji : j + 1 = i := by injection h
        have := ih hj
        simp only [List.length_cons]
        omega

theorem findDelim_append : ∀ {l : List Nat} {i : Nat} (m : List Nat),
    findDelim l = some i → findDelim (l ++ m) = some i := by
  intro l
  induction l with
  | nil => intro i m h; exact Option.noConfusion h
  | cons x xs ih =>
    intro i m h
    rw [findDelim_cons] at h
    rw [List.cons_append, findDelim_cons]
    by_cases hd : isDelimAt (x :: xs) = true
    · have hd₂ : isDelimAt (x :: (xs ++ m)) = true := by
        have := isDelimAt_append_true m hd
        rw [List.cons_append] at this
        exact this
      rw [if_pos hd] at h
      rw [if_pos hd₂]
      exact h
    · rw [if_neg hd] at h
      cases hj : findDelim xs with
      | none => rw [hj] at h; exact Option.noConfusion h
      | some j =>
        rw [hj] at h
        have hlen : 4 ≤ (x :: xs).length := by
          have := findDelim_some_le hj
          simp only [List.length_cons]
          omega
        have hd₂ : ¬isDelimAt (x :: (xs ++ m)) = true := by
          have heq := isDelimAt_append_of_le (l := x :: xs) m hlen
          rw [List.cons_append] at heq
          rw [heq]
          exact hd
        rw [if_neg hd₂, ih m hj]
        exact h

theorem findDelim_first : ∀ {l : List Nat} {i : Nat}, findDelim l = some i →
    isDelimAt (l.drop i) = true ∧ ∀ j, j < i → isDelimAt (l.drop j) = false := by
  intro l
  induction l with
  | nil => intro i h; exact Option.noConfusion h
  | cons x xs ih =>
    intro i h
    rw [findDelim_cons] at h
    by_cases hd : isDelimAt (x :: xs) = true
    · rw [if_pos hd] at h
      have h₀ : (0 : Nat) = i := by injection h
      subst h₀
      exact ⟨hd, fun j hj => absurd hj (by omega)⟩
    · rw [if_neg hd] at h
      cases hj : findDelim xs with
      | none => rw [hj] at h; exact Option.noConfusion h
      | some j =>
        rw [hj] at h
        simp only [Option.map_some'] at h
        have hji : j + 1 = i := by injection h
        subst hji
        obtain ⟨h₁, h₂⟩ := ih hj
        refine ⟨by rw [List.drop_succ_cons]; exact h₁, ?_⟩
        intro k hk
        cases k with
        | zero => rw [List.drop_zero]; exact bool_eq_false hd
        | succ k₀ =>
          rw [List.drop_succ_cons]
          exact h₂ k₀ (by omega)

/-! ## Unfolding lemmas for the stdout data handler -/

theorem step_parsed (s : GitState) (c : List Nat) (h : s.headersParsed = true) :
    step s c = { s with res := { s.res with body := s.res.body ++ c } } := by
  unfold step
  rw [if_pos h]

theorem step_none (s : GitState) (c : List Nat) (h : s.headersParsed = false)
    (hfd : findDelim (s.responseBuffer ++ c) = none) :
    step s c = { s with responseBuffer := s.responseBuffer ++ c } := by
  unfold step
  rw [if_neg (by simp [h]), hfd]

theorem step_some (s : GitState) (c : List Nat) {i : Nat}
    (h : s.headersParsed = false)
    (hfd : findDelim (s.responseBuffer ++ c) = some i) :
    step s c =
      { headersParsed := true
        responseBuffer := s.responseBuffer ++ c
        res := { statusCode :=
                   (parseHeadersFrom s.res.statusCode
                     ((s.responseBuffer ++ c).take i)).1
                 headers :=
                   (parseHeadersFrom s.res.statusCode
                     ((s.responseBuffer ++ c).take i)).2
                 body := s.res.body ++ (s.responseBuffer ++ c).drop (i + 4)
                 ended := s.res.ended } } := by
  unfold step
  rw [if_neg (by simp [h]), hfd]

/-! ## Observational equivalence of handler states

Two handler states are observationally equal when they agree on the parsed
flag and the whole response, and, while headers are still unparsed, on the
accumulating buffer.  (After the parse the code never reads the buffer again,
so states reached chunk-by-chunk and in one shot may keep different dead
buffers.) -/

def obsEq (s t : GitState) : Prop :=
  s.headersParsed = t.headersParsed ∧ s.res = t.res ∧
    (s.headersParsed = false → s.responseBuffer = t.responseBuffer)

theorem obsEq_refl (s : GitState) : obsEq s s := ⟨rfl, rfl, fun _ => rfl⟩

theorem obsEq_of_eq {s t : GitState} (h : s = t) : obsEq s t := h ▸ obsEq_refl s

theorem obsEq_trans {s t u : GitState} (h₁ : obsEq s t) (h₂ : obsEq t u) :
    obsEq s u :=
  ⟨h₁.1.trans h₂.1, h₁.2.1.trans h₂.2.1,
    fun hf => (h₁.2.2 hf).trans (h₂.2.2 (h₁.1.symm.trans hf))⟩

theorem eq_of_obsEq_unparsed {s t : GitState} (h : obsEq s t)
    (hp : s.headersParsed = false) : s = t := by
  obtain ⟨h₁, h₂, h₃⟩ := h
  have hb := h₃ hp
  cases s
  cases t
  simp_all

theorem obsEq_step {s t : GitState} (h : obsEq s t) (c : List Nat) :
    obsEq (step s c) (step t c) := by
  by_cases hp : s.headersParsed = true
  · have hpt : t.headersParsed = true := h.1.symm.trans hp
    rw [step_parsed s c hp, step_parsed t c hpt]
    refine ⟨h.1, by rw [h.2.1], ?_⟩
    intro hf
    have hsf : s.headersParsed = false := hf
    rw [hp] at hsf
    exact Bool.noConfusion hsf
  · have hpf : s.headersParsed = false := bool_eq_false hp
    rw [eq_of_obsEq_unparsed h hpf]
    exact obsEq_refl _

theorem step_after_some (s : GitState) (a b : List Nat) {i : Nat}
    (h : s.headersParsed = false)
    (hfd : findDelim (s.responseBuffer ++ a) = some i) :
    step (step s a) b =
      { headersParsed := true
        responseBuffer := s.responseBuffer ++ a
        res := { statusCode :=
                   (parseHeadersFrom s.res.statusCode
                     ((s.responseBuffer ++ a).take i)).1
                 headers :=
                   (parseHeadersFrom s.res.statusCode
                     ((s.responseBuffer ++ a).take i)).2
                 body := s.res.body ++ (s.responseBuffer ++ a).drop (i + 4) ++ b
                 ended := s.res.ended } } := by
  rw [step_some s a h hfd]
  rfl

theorem step_step (s : GitState) (a b : List Nat) :
    obsEq (step (step s a) b) (step s (a ++ b)) := by
  by_cases hp : s.headersParsed = true
  · rw [step_parsed s a hp,
      step_parsed { s with res := { s.res with body := s.res.body ++ a } } b hp,
      step_parsed s (a ++ b) hp]
    apply obsEq_of_eq
    simp [List.append_assoc]
  · have hpf : s.headersParsed = false := bool_eq_false hp
    have hassoc : s.responseBuffer ++ a ++ b = s.responseBuffer ++ (a ++ b) :=
      List.append_assoc _ _ _
    cases hfd : findDelim (s.responseBuffer ++ a) with
    | none =>
      rw [step_none s a hpf hfd]
      cases hfd₂ : findDelim (s.responseBuffer ++ a ++ b) with
      | none =>
        rw [step_none { s with responseBuffer := s.responseBuffer ++ a } b hpf hfd₂,
          step_none s (a ++ b) hpf (by rw [← hassoc]; exact hfd₂)]
        apply obsEq_of_eq
        simp [List.append_assoc]
      | some i =>
        rw [step_some { s with responseBuffer := s.responseBuffer ++ a } b hpf hfd₂,
          step_some s (a ++ b) hpf (by rw [← hassoc]; exact hfd₂)]
        apply obsEq_of_eq
        simp [List.append_assoc]
    | some i =>
      have hle : i + 4 ≤ (s.responseBuffer ++ a).length := findDelim_some_le hfd
      have hfd₂ : findDelim (s.responseBuffer ++ (a ++ b)) = some i := by
        rw [← hassoc]
        exact findDelim_append b hfd
      rw [step_after_some s a b hpf hfd, step_some s (a ++ b) hpf hfd₂]
      have htake : (s.responseBuffer ++ (a ++ b)).take i =
          (s.responseBuffer ++ a).take i := by
        rw [← hassoc, List.take_append_of_le_length (by omega)]
      have hdrop : (s.responseBuffer ++ (a ++ b)).drop (i + 4) =
          (s.responseBuffer ++ a).drop (i + 4) ++ b := by
        rw [← hassoc, List.drop_append_of_le_length hle]
      refine ⟨rfl, ?_, fun hf => Bool.noConfusion hf⟩
      rw [htake, hdrop, List.append_assoc]

/-! ## Folding chunks versus one concatenated chunk -/

theorem processAll_nil (s : GitState) : processAll s [] = s := rfl

theorem processAll_cons (s : GitState) (c : List Nat) (cs : List (List Nat)) :
    processAll s (c :: cs) = processAll (step s c) cs := rfl

theorem processAll_obsEq : ∀ (cs : List (List Nat)) {s t : GitState},
    obsEq s t → obsEq (processAll s cs) (processAll t cs) := by
  intro cs
  induction cs with
  | nil => intro s t h; exact h
  | cons c cs ih => intro s t h; exact ih (obsEq_step h c)

theorem processAll_step_flatten :
    ∀ (cs : List (List Nat)) (s : GitState) (a : List Nat),
      obsEq (processAll (step s a) cs) (step s (a ++ cs.flatten)) := by
  intro cs
  induction cs with
  | nil =>
    intro s a
    rw [processAll_nil, List.flatten_nil, List.append_nil]
    exact obsEq_refl _
  | cons c cs ih =>
    intro s a
    rw [processAll_cons]
    refine obsEq_trans (processAll_obsEq cs (step_step s a c)) ?_
    refine obsEq_trans (ih s (a ++ c)) ?_
    rw [List.flatten_cons, ← List.append_assoc]
    exact obsEq_refl _

theorem processAll_flatten (chunks : List (List Nat)) :
    obsEq (processAll initGit chunks) (step initGit chunks.flatten) := by
  cases chunks with
  | nil =>
    rw [processAll_nil]
    exact obsEq_of_eq (by decide)
  | cons c cs =>
    rw [processAll_cons]
    refine obsEq_trans (processAll_step_flatten cs initGit c) ?_
    rw [List.flatten_cons]
    exact obsEq_refl _

/-! ## Claim C2: the header/body split happens once, at the first delimiter -/

/-- C2: for a stdout stream whose first `CRLFCRLF` is at index `i`, the
handler's search finds exactly that first occurrence; processing the stream
parses precisely the bytes before it as the header section (status code and
headers come from `parseHeaders` of that prefix), forwards every byte after
the delimiter unchanged as the body, and, once the split has happened, every
further chunk is appended to the body verbatim with no second split. -/
theorem header_body_split_once (S : List Nat) (i : Nat)
    (h : findDelim S = some i) :
    (isDelimAt (S.drop i) = true ∧ ∀ j, j < i → isDelimAt (S.drop j) = false) ∧
    (step initGit S).headersParsed = true ∧
    (step initGit S).res.statusCode = (parseHeaders (S.take i)).1 ∧
    (step initGit S).res.headers = (parseHeaders (S.take i)).2 ∧
    (step initGit S).res.body = S.drop (i + 4) ∧
    (∀ (s : GitState) (c : List Nat), s.headersParsed = true →
      step s c = { s with res := { s.res with body := s.res.body ++ c } }) := by
  have hfd : findDelim (initGit.responseBuffer ++ S) = some i := h
  rw [step_some initGit S rfl hfd]
  exact ⟨findDelim_first h, rfl, rfl, rfl, rfl, fun s c hp => step_parsed s c hp⟩

/-- C2 witness: on a concrete stream the delimiter is found at index 4 and
the body is the bytes after index 8. -/
theorem header_body_split_once_witness :
    (step initGit (byteStr "A: B\r\n\r\nXY")).res.body =
      (byteStr "A: B\r\n\r\nXY").drop 8 :=
  (header_body_split_once (byteStr "A: B\r\n\r\nXY") 4 (by decide)).2.2.2.2.1

/-! ## Claim C4: status and headers are finalized before any body byte -/

theorem step_unparsed_inv (s : GitState) (c : List Nat)
    (h : s.headersParsed = false → s.res = initRes) :
    (step s c).headersParsed = false → (step s c).res = initRes := by
  intro hf
  by_cases hp : s.headersParsed = true
  · rw [step_parsed s c hp] at hf ⊢
    have hsf : s.headersParsed = false := hf
    rw [hp] at hsf
    exact Bool.noConfusion hsf
  · have hpf : s.headersParsed = false := bool_eq_false hp
    cases hfd : findDelim (s.responseBuffer ++ c) with
    | none =>
      rw [step_none s c hpf hfd]
      exact h hpf
    | some i =>
      rw [step_some s c hpf hfd] at hf
      exact Bool.noConfusion hf

theorem processAll_unparsed_res (chunks : List (List Nat)) :
    (processAll initGit chunks).headersParsed = false →
      (processAll initGit chunks).res = initRes := by
  have general : ∀ (cs : List (List Nat)) (s : GitState),
      (s.headersParsed = false → s.res = initRes) →
      ((processAll s cs).headersParsed = false →
        (processAll s cs).res = initRes) := by
    intro cs
    induction cs with
    | nil => intro s h; exact h
    | cons c cs ih => intro s h; exact ih (step s c) (step_unparsed_inv s c h)
  exact general chunks initGit (fun _ => rfl)

/-- C4: after any sequence of stdout chunks, body bytes have been written
only if the header/status finalization already happened (`headersParsed`),
and once it has happened every further chunk leaves the status code and the
headers untouched and only appends to the body; so status and headers are
set exactly once, at the single parse event, before any body byte. -/
theorem headers_finalized_before_body (chunks : List (List Nat))
    (c : List Nat) :
    ((processAll initGit chunks).res.body ≠ [] →
      (processAll initGit chunks).headersParsed = true) ∧
    ((processAll initGit chunks).headersParsed = true →
      (step (processAll initGit chunks) c).headersParsed = true ∧
      (step (processAll initGit chunks) c).res.statusCode =
        (processAll initGit chunks).res.statusCode ∧
      (step (processAll initGit chunks) c).res.headers =
        (processAll initGit chunks).res.headers ∧
      (step (processAll initGit chunks) c).res.body =
        (processAll initGit chunks).res.body ++ c) := by
  constructor
  · intro hb
    by_contra hnp
    have hpf : (processAll initGit chunks).headersParsed = false :=
      bool_eq_false hnp
    rw [processAll_unparsed_res chunks hpf] at hb
    exact hb rfl
  · intro hp
    rw [step_parsed (processAll initGit chunks) c hp]
    exact ⟨hp, rfl, rfl, rfl⟩

/-- C4 witness: a concrete stream with a delimiter reaches the finalized
state, via the body-nonempty direction of the theorem. -/
theorem headers_finalized_before_body_witness :
    (processAll initGit [byteStr "X: 1\r\n\r\nB"]).headersParsed = true :=
  (headers_finalized_before_body [byteStr "X: 1\r\n\r\nB"] []).1 (by decide)

/-! ## Claim C9: the split is insensitive to chunk boundaries -/

/-- C9: processing any chunking of a stdout stream yields the same status
code, the same headers, and the same body bytes as processing the entire
concatenated stream as one chunk; in particular a delimiter straddling a
chunk boundary is still found. -/
theorem chunking_insensitive (chunks : List (List Nat)) :
    (processAll initGit chunks).res.statusCode =
      (step initGit chunks.flatten).res.statusCode ∧
    (processAll initGit chunks).res.headers =
      (step initGit chunks.flatten).res.headers ∧
    (processAll initGit chunks).res.body =
      (step initGit chunks.flatten).res.body := by
  have h := processAll_flatten chunks
  exact ⟨by rw [h.2.1], by rw [h.2.1], by rw [h.2.1]⟩

/-! ## Claim C10: a stream with no delimiter produces an empty 200 response -/

/-- C10: when the backend stdout stream never contains `CRLFCRLF`, no header
is ever set and no body byte is written: after the `'end'` event the response
has the default status 200, no headers, an empty body, and is completed (the
accumulated buffer is simply discarded). -/
theorem no_delimiter_empty_response (chunks : List (List Nat))
    (h : findDelim chunks.flatten = none) :
    (endResponse (processAll initGit chunks)).res.statusCode = some 200 ∧
    (endResponse (processAll initGit chunks)).res.headers = [] ∧
    (endResponse (processAll initGit chunks)).res.body = [] ∧
    (endResponse (processAll initGit chunks)).res.ended = true := by
  have hobs := processAll_flatten chunks
  have hstep : step initGit chunks.flatten =
      { initGit with responseBuffer := initGit.responseBuffer ++ chunks.flatten } :=
    step_none initGit chunks.flatten rfl h
  have hres : (processAll initGit chunks).res = initRes := by
    rw [hobs.2.1, hstep]
    rfl
  refine ⟨?_, ?_, ?_, ?_⟩ <;> simp [endResponse, hres, initRes]

/-- C10 witness: a concrete delimiter-free stream yields an empty body. -/
theorem no_delimiter_empty_response_witness :
    (endResponse (processAll initGit [byteStr "hello"])).res.body = [] :=
  (no_delimiter_empty_response [byteStr "hello"] (by decide)).2.2.1

end NodeGitHttp
